import Mathlib

/-!
Shallow embedding of the memory engine of `src/convex/lib/memory.ts`
(ai-town): the embedding cache, the ingestion pipeline `addMemories`, the
retrieval paths `search` / `accessMemories`, and the conversation
summarizer `rememberConversation`, together with theorems checking the
natural-language specification against this code.

Modelling conventions:
* JavaScript numbers are modelled exactly as `JSNum`: a rational, `NaN`,
  or a signed infinity.  Floating-point rounding is abstracted away; the
  operations the source uses (subtraction, division, `Math.floor`,
  `Math.min`/`max`, the bitwise `^` with its ToInt32 coercion, `<`, `>=`)
  are modelled with their ECMAScript semantics on these values.
* Convex tables are lists kept in insertion order; `_creationTime` is a
  rational stamped at insert.  `.order('desc').first()` on an index whose
  last component is `_creationTime` is the last matching element of the
  insertion-ordered list (creation times increase with insertion).
* Async/`Promise` sequencing carries no observable interleaving here
  (every operation awaits its calls in order), so effectful code is
  state-passing over `DB`, and fallible code returns `Except String`.
* External collaborators (the embedding provider and the chat model) are
  function parameters, so theorems quantify over their behaviour.
-/

namespace AITown

/-- A JavaScript number: `NaN`, `±Infinity`, or a (finite) rational. -/
inductive JSNum where
  | nan : JSNum
  | posInf : JSNum
  | negInf : JSNum
  | num : ℚ → JSNum
deriving DecidableEq

/-- Is this a finite (real) JS number? -/
def JSNum.isReal : JSNum → Bool
  | .num _ => true
  | _ => false

/-- JS subtraction `a - b`. -/
def jsSub : JSNum → JSNum → JSNum
  | .nan, _ => .nan
  | _, .nan => .nan
  | .posInf, .posInf => .nan
  | .posInf, _ => .posInf
  | .negInf, .negInf => .nan
  | .negInf, _ => .negInf
  | .num _, .posInf => .negInf
  | .num _, .negInf => .posInf
  | .num a, .num b => .num (a - b)

/-- JS addition `a + b`. -/
def jsAdd : JSNum → JSNum → JSNum
  | .nan, _ => .nan
  | _, .nan => .nan
  | .posInf, .negInf => .nan
  | .negInf, .posInf => .nan
  | .posInf, _ => .posInf
  | _, .posInf => .posInf
  | .negInf, _ => .negInf
  | _, .negInf => .negInf
  | .num a, .num b => .num (a + b)

/-- JS division `a / b` (zero denominators give `NaN` or a signed
infinity, as for IEEE-754 with a positive zero denominator). -/
def jsDiv : JSNum → JSNum → JSNum
  | .nan, _ => .nan
  | _, .nan => .nan
  | .posInf, .posInf => .nan
  | .posInf, .negInf => .nan
  | .negInf, .posInf => .nan
  | .negInf, .negInf => .nan
  | .posInf, .num b => if b < 0 then .negInf else .posInf
  | .negInf, .num b => if b < 0 then .posInf else .negInf
  | .num _, .posInf => .num 0
  | .num _, .negInf => .num 0
  | .num a, .num b =>
    if b = 0 then
      if a = 0 then .nan else if a > 0 then .posInf else .negInf
    else .num (a / b)

/-- JS `<` as a boolean (any comparison with `NaN` is false). -/
def jsLtB : JSNum → JSNum → Bool
  | .nan, _ => false
  | _, .nan => false
  | .negInf, .negInf => false
  | .negInf, _ => true
  | _, .negInf => false
  | .posInf, _ => false
  | .num _, .posInf => true
  | .num a, .num b => decide (a < b)

/-- JS `>=` as a boolean (any comparison with `NaN` is false). -/
def jsGeB : JSNum → JSNum → Bool
  | .nan, _ => false
  | _, .nan => false
  | .posInf, _ => true
  | _, .posInf => false
  | _, .negInf => true
  | .negInf, _ => false
  | .num a, .num b => decide (b ≤ a)

/-- Binary `Math.min` (NaN-propagating). -/
def jsMin2 : JSNum → JSNum → JSNum
  | .nan, _ => .nan
  | _, .nan => .nan
  | .negInf, _ => .negInf
  | _, .negInf => .negInf
  | .posInf, b => b
  | a, .posInf => a
  | .num a, .num b => .num (min a b)

/-- Binary `Math.max` (NaN-propagating). -/
def jsMax2 : JSNum → JSNum → JSNum
  | .nan, _ => .nan
  | _, .nan => .nan
  | .posInf, _ => .posInf
  | _, .posInf => .posInf
  | .negInf, b => b
  | a, .negInf => a
  | .num a, .num b => .num (max a b)

/-- `Math.min(...values)`: `Infinity` on an empty argument list. -/
def jsMinList (values : List JSNum) : JSNum :=
  values.foldl jsMin2 .posInf

/-- `Math.max(...values)`: `-Infinity` on an empty argument list. -/
def jsMaxList (values : List JSNum) : JSNum :=
  values.foldl jsMax2 .negInf

/-- `Math.floor`. -/
def jsFloor : JSNum → JSNum
  | .nan => .nan
  | .posInf => .posInf
  | .negInf => .negInf
  | .num q => .num (⌊q⌋ : ℤ)

/-- Truncation toward zero of a rational (the integer part used by
ECMAScript's ToInt32/ToUint32). -/
def ratTrunc (q : ℚ) : ℤ :=
  if 0 ≤ q then ⌊q⌋ else -⌊-q⌋

/-- ECMAScript ToUint32: `NaN`/`±Infinity` map to 0, a finite number is
truncated toward zero and reduced mod 2^32. -/
def toUint32 : JSNum → ℕ
  | .num q => ((ratTrunc q) % ((2 : ℤ) ^ 32)).toNat
  | _ => 0

/-- Reinterpret a 32-bit unsigned value as a signed int32. -/
def int32OfUint32 (n : ℕ) : ℤ :=
  if n < 2 ^ 31 then (n : ℤ) else (n : ℤ) - 2 ^ 32

/-- The JS bitwise XOR operator `a ^ b` (ToInt32 both operands, XOR the
32-bit patterns, reinterpret as signed).  This is the operator the
source's recency formula `0.99 ^ hours` actually invokes. -/
def jsBitXor (a b : JSNum) : JSNum :=
  .num ((int32OfUint32 (Nat.xor (toUint32 a) (toUint32 b)) : ℤ) : ℚ)

/-! ### `parseInt` on a single character, and `parseFloat`

The importance parser of `addMemories` (memory.ts lines 108-120) calls
`parseInt(importanceRaw[i])` on single characters and
`parseFloat(importanceRaw)` on the whole response.  ASCII input is
assumed (`parseInt` accepts only ASCII decimal digits without a radix
prefix; a single character can never carry a `0x` prefix). -/

/-- Value of an ASCII digit character. -/
def digitToNat (c : Char) : ℕ := c.toNat - 48

/-- `parseInt` applied to a one-character string: an ASCII digit parses
to its value, anything else is `NaN`. -/
def parseIntChar (c : Char) : JSNum :=
  if c.isDigit then .num (digitToNat c) else .nan

/-- StrWhiteSpace characters skipped by `parseFloat` (ASCII subset). -/
def isStrWS (c : Char) : Bool :=
  c = ' ' || c = '\t' || c = '\n' || c = '\r'

/-- Split a leading run of ASCII digits off a character list. -/
def readDigits : List Char → List Char × List Char
  | [] => ([], [])
  | c :: cs =>
    if c.isDigit then
      let (ds, r) := readDigits cs
      (c :: ds, r)
    else ([], c :: cs)

/-- Natural value of a digit run. -/
def natOfDigits (ds : List Char) : ℕ :=
  ds.foldl (fun acc c => 10 * acc + digitToNat c) 0

/-- Rational value of a fractional digit run (digits after the dot). -/
def fracOfDigits (ds : List Char) : ℚ :=
  (natOfDigits ds : ℚ) / (10 : ℚ) ^ ds.length

/-- Parse the exponent part after `e`/`E`: optional sign then digits;
`none` when no digits follow (then the exponent marker is not part of the
longest valid literal and is ignored). -/
def readExponent : List Char → Option ℤ
  | '+' :: cs =>
    let (ds, _) := readDigits cs
    if ds.isEmpty then none else some (natOfDigits ds : ℤ)
  | '-' :: cs =>
    let (ds, _) := readDigits cs
    if ds.isEmpty then none else some (-(natOfDigits ds : ℤ))
  | cs =>
    let (ds, _) := readDigits cs
    if ds.isEmpty then none else some (natOfDigits ds : ℤ)

/-- Scale a rational by a power of ten. -/
def scalePow10 (q : ℚ) (e : ℤ) : ℚ :=
  if 0 ≤ e then q * (10 : ℚ) ^ e.toNat else q / (10 : ℚ) ^ (-e).toNat

/-- The unsigned part of a `parseFloat` literal: `Infinity`, or decimal
digits with optional fraction and exponent. `neg` records a preceding
minus sign. -/
def parseFloatUnsigned (neg : Bool) (cs : List Char) : JSNum :=
  if cs.take 8 = "Infinity".toList then
    if neg then .negInf else .posInf
  else
    let (intDs, r1) := readDigits cs
    let (fracDs, r2) :=
      match r1 with
      | '.' :: r => readDigits r
      | _ => ([], r1)
    if intDs.isEmpty && fracDs.isEmpty then .nan
    else
      let mant : ℚ := (natOfDigits intDs : ℚ) + fracOfDigits fracDs
      let e : ℤ :=
        match r2 with
        | c :: r => if c = 'e' || c = 'E' then (readExponent r).getD 0 else 0
        | [] => 0
      let v := scalePow10 mant e
      .num (if neg then -v else v)

/-- ECMAScript `parseFloat` (exact-rational model; the float64 rounding
of the result is abstracted away). -/
def jsParseFloat (s : String) : JSNum :=
  match s.toList.dropWhile isStrWS with
  | '+' :: cs => parseFloatUnsigned false cs
  | '-' :: cs => parseFloatUnsigned true cs
  | cs => parseFloatUnsigned false cs

/-! ### Data model (Convex documents) -/

/-- Modelled from the spec: the Memory payload is "a tagged payload
(`conversation{conversationId}` | other kinds)" (§3); the concrete
variant list lives in `convex/types.ts`, which is not part of the core
source here.  Only the `conversation` variant is inspected by the code
under study. -/
inductive MemoryData where
  | conversation : ℕ → MemoryData
  | other : String → MemoryData
deriving DecidableEq

/-- The `conversationId` of a payload, when it is a conversation. -/
def conversationIdOfData : MemoryData → Option ℕ
  | .conversation cid => some cid
  | .other _ => none

/-- Is the payload conversation-typed (`data.type === 'conversation'`)? -/
def MemoryData.isConversation : MemoryData → Bool
  | .conversation _ => true
  | .other _ => false

/-- A row of the `embeddings` table. -/
structure EmbeddingDoc where
  id : ℕ
  playerId : ℕ
  text : String
  embedding : List ℚ
  creationTime : ℚ
deriving DecidableEq

/-- A row of the `memories` table. -/
structure MemoryDoc where
  id : ℕ
  playerId : ℕ
  description : String
  embeddingId : ℕ
  importance : JSNum
  data : MemoryData
  creationTime : ℚ
deriving DecidableEq

/-- A row of the append-only `memoryAccesses` table. -/
structure MemoryAccessDoc where
  memoryId : ℕ
  creationTime : ℚ
deriving DecidableEq

/-- Modelled from the spec: a `journal` row of the dialogue kind.  The
spec (§4.5) describes "dialogue messages belonging to `conversationId`
that were sent by or addressed to the agent"; the concrete entry shape
lives in `convex/types.ts` (not part of the core source).  `isTalking`
models `data.type === 'talking'`, `sender`/`audience` the message's
author and addressees. -/
structure JournalEntry where
  conversationId : ℕ
  isTalking : Bool
  sender : ℕ
  audience : List ℕ
  content : String
  creationTime : ℚ
deriving DecidableEq

/-- Modelled from the spec: the client message produced by
`clientMessageMapper` (`convex/chat.ts`, not part of the core source):
`ts` is the journal entry's creation time, `from_`/`to` its sender and
audience. -/
structure Message where
  from_ : ℕ
  to_ : List ℕ
  content : String
  ts : ℚ
deriving DecidableEq

/-- The document store.  Lists are in insertion order; `nextId` feeds
fresh row ids. -/
structure DB where
  nextId : ℕ
  memories : List MemoryDoc
  embeddings : List EmbeddingDoc
  memoryAccesses : List MemoryAccessDoc
  journal : List JournalEntry
deriving DecidableEq

/-- `.order('desc').first()` on an index ending in `_creationTime`: the
most recently inserted matching row. -/
def lastMatching (l : List α) (p : α → Bool) : Option α :=
  (l.filter p).getLast?

/-- `.first()` in the default ascending order: the earliest matching
row. -/
def firstMatching (l : List α) (p : α → Bool) : Option α :=
  (l.filter p).head?

/-- Sequencing of a fallible computation over a list (the model of
`asyncMap` composed with awaited Convex calls). -/
def mapExcept (f : α → Except String β) : List α → Except String (List β)
  | [] => .ok []
  | a :: as =>
    match f a with
    | .error e => .error e
    | .ok b =>
      match mapExcept f as with
      | .error e => .error e
      | .ok bs => .ok (b :: bs)

/-! ### Lookups (memory.ts lines 286-318) -/

/-- `getMemoryByEmbeddingId` (lines 286-300): most recent memory of the
player with this `embeddingId`; throws when none exists. -/
def getMemoryByEmbeddingId (db : DB) (playerId embeddingId : ℕ) :
    Except String MemoryDoc :=
  match lastMatching db.memories
      (fun m => m.playerId == playerId && m.embeddingId == embeddingId) with
  | some doc => .ok doc
  | none => .error ("No memory found for player and embedding")

/-- One text's lookup inside `checkEmbeddingCache` (lines 302-311):
earliest embedding row with exactly this text, else a miss. -/
def cacheLookup (db : DB) (text : String) : Option (List ℚ) :=
  (firstMatching db.embeddings (fun e => e.text == text)).map (·.embedding)

/-! ### Retrieval scoring (memory.ts lines 193-244) -/

/-- `makeRange` (lines 240-244). -/
def makeRange (values : List JSNum) : JSNum × JSNum :=
  (jsMinList values, jsMaxList values)

/-- `normalize` (lines 235-238): `(value - min) / (max - min)`.  The
`max == min` case is NOT guarded and yields `0/0 = NaN`. -/
def normalize (value : JSNum) (range : JSNum × JSNum) : JSNum :=
  jsDiv (jsSub value range.1) (jsSub range.2 range.1)

/-- The latest `memoryAccesses` row for a memory
(`by_memoryId` index, descending, `.first()`; lines 207-211). -/
def latestAccessOf (db : DB) (memoryId : ℕ) : Option MemoryAccessDoc :=
  lastMatching db.memoryAccesses (fun a => a.memoryId == memoryId)

/-- The recency signal of one candidate (lines 206-215).  With no access
row the code returns the constant `1` (the `memory._creationTime` arm of
the ternary on line 213 is dead: it is only reached when `access` is
non-null).  Otherwise it evaluates
`0.99 ^ Math.floor((ts - accessTime) / 1000 / 60 / 60)` where `^` is the
JS bitwise XOR, not exponentiation. -/
def recencyScoreOf (db : DB) (ts : ℚ) (memory : MemoryDoc) : JSNum :=
  match latestAccessOf db memory.id with
  | none => .num 1
  | some access =>
    let accessTime := access.creationTime
    jsBitXor (.num (99 / 100))
      (jsFloor (jsDiv (jsDiv (jsDiv (jsSub (.num ts) (.num accessTime))
        (.num 1000)) (.num 60)) (.num 60)))

/-- A candidate returned by the vector index: embedding id and
similarity score. -/
structure Candidate where
  embeddingId : ℕ
  score : JSNum
deriving DecidableEq

/-- A scored candidate.  `idx` records the candidate's original position
in the vector-query order; it does not exist in the source object but is
needed to state the ES2019 stable-sort guarantee. -/
structure ScoredItem where
  memory : MemoryDoc
  overallScore : JSNum
  idx : ℕ
deriving DecidableEq

/-- The composite scores, one per candidate, in candidate order
(lines 219-225). -/
def scoreList (relevanceRange importanceRange recencyRange : JSNum × JSNum) :
    ℕ → List (MemoryDoc × Candidate × JSNum) → List ScoredItem
  | _, [] => []
  | idx, (memory, cand, recency) :: rest =>
    { memory := memory
      overallScore :=
        jsAdd (jsAdd (normalize cand.score relevanceRange)
          (normalize memory.importance importanceRange))
          (normalize recency recencyRange)
      idx := idx } ::
      scoreList relevanceRange importanceRange recencyRange (idx + 1) rest

/-- Does the comparator `(a, b) => b.overallScore - a.overallScore`
return a positive value (i.e. demand that `b` precede `a`)? -/
def comparatorPos (x y : JSNum) : Bool :=
  jsLtB (.num 0) (jsSub y x)

/-- May `x` be placed before `y` by the sort?  Per SortCompare, a `NaN`
comparator result counts as `+0`, i.e. a tie, and on a tie the earlier
element stays first (stability). -/
def scoreGeJS (x y : JSNum) : Bool :=
  !(comparatorPos x y)

/-- Stable insertion of `x` (originally earlier than every element of
the list) into a sorted-descending list. -/
def insertDesc (x : ScoredItem) : List ScoredItem → List ScoredItem
  | [] => [x]
  | y :: ys =>
    if scoreGeJS x.overallScore y.overallScore then x :: y :: ys
    else y :: insertDesc x ys

/-- `memoryScores.sort((a, b) => b.overallScore - a.overallScore)`
(line 226) as a stable insertion sort.  For a consistent comparator this
is exactly the result ES2019 mandates for `Array.prototype.sort`; in
this program the comparator is consistent whenever the scores are all
real or all `NaN` (NaN comparator results count as ties), which covers
every run in which no signal mixes infinite and finite values. -/
def sortDesc : List ScoredItem → List ScoredItem
  | [] => []
  | x :: xs => insertDesc x (sortDesc xs)

/-- The unsorted scored candidates of the `accessMemories` mutation
(lines 199-225): hydrate every candidate (throwing on a missing memory),
compute the three signals and their ranges, and sum the normalized
signals. -/
def scoreCandidates (db : DB) (ts : ℚ) (playerId : ℕ)
    (candidates : List Candidate) : Except String (List ScoredItem) :=
  match mapExcept (fun c => getMemoryByEmbeddingId db playerId c.embeddingId)
      candidates with
  | .error e => .error e
  | .ok relatedMemories =>
    let recencyScore := relatedMemories.map (recencyScoreOf db ts)
    let relevanceRange := makeRange (candidates.map (·.score))
    let importanceRange := makeRange (relatedMemories.map (·.importance))
    let recencyRange := makeRange recencyScore
    .ok (scoreList relevanceRange importanceRange recencyRange 0
      (relatedMemories.zip (candidates.zip recencyScore)))

/-- The `accessMemories` internal mutation (lines 193-233): score, sort
descending, keep the first `count`, and insert one `memoryAccesses` row
per kept memory.  Returns the kept `(memory, overallScore)` pairs and
the updated store. -/
def accessMemoriesM (db : DB) (ts : ℚ) (playerId : ℕ)
    (candidates : List Candidate) (count : ℕ) :
    Except String (List (MemoryDoc × JSNum) × DB) :=
  match scoreCandidates db ts playerId candidates with
  | .error e => .error e
  | .ok memoryScores =>
    let accessed := (sortDesc memoryScores).take count
    .ok (accessed.map (fun it => (it.memory, it.overallScore)),
      { db with
        memoryAccesses := db.memoryAccesses ++
          accessed.map (fun it =>
            { memoryId := it.memory.id, creationTime := ts }) })

/-- `search` (lines 58-66): hydrate the vector-query results via the
read-only `getMemories` internal query and pair each with its index
score.  Convex queries cannot write, which the model renders by passing
the store through unchanged. -/
def searchAction (db : DB) (playerId : ℕ) (results : List Candidate) :
    Except String (List (MemoryDoc × JSNum) × DB) :=
  match mapExcept (fun r => getMemoryByEmbeddingId db playerId r.embeddingId)
      results with
  | .error e => .error e
  | .ok memories =>
    .ok ((results.zip memories).map (fun p => (p.2, p.1.score)), db)

/-! ### Ingestion (memory.ts lines 77-136 and 271-282) -/

/-- A memory draft (`NewMemory`): everything but the embedding, with
optional importance. -/
structure NewMemory where
  playerId : ℕ
  description : String
  data : MemoryData
  importance : Option JSNum
deriving DecidableEq

/-- The first-digit scan of lines 108-115: `importance` starts as `NaN`
and becomes the first character whose `parseInt` is a number.  Its
result is dead in the source: line 116 overwrites it unconditionally. -/
def firstDigitLoop (raw : String) : JSNum :=
  match raw.toList.find? (·.isDigit) with
  | some c => parseIntChar c
  | none => .nan

/-- The importance computed from a chat response (lines 108-120): after
the (dead) first-digit loop, `importance = parseFloat(importanceRaw)`,
and `5` when that is `NaN`. -/
def importanceFromResponse (raw : String) : JSNum :=
  let loopResult := firstDigitLoop raw
  let _ := loopResult
  match jsParseFloat raw with
  | .nan => .num 5
  | x => x

/-- The prompt sent to the chat model for importance scoring
(lines 97-107); the fixed instruction follows the description. -/
def importancePrompt (description : String) : String :=
  description ++
    (" How important is this? Answer on a scale of 0 to 9. Respond with number only.")

/-- The importance stored for a draft (lines 95-124): the draft's own
importance when set, else the parse of the chat response. -/
def resolveImportance (complete : String → String) (d : NewMemory) : JSNum :=
  match d.importance with
  | some v => v
  | none => importanceFromResponse (complete (importancePrompt d.description))

/-- The texts of the drafts whose cache lookup missed, in draft order
(lines 81-83): `filter((memory, idx) => !cachedEmbeddings[idx])` then
`map(description)`.  An embedding array is always truthy (even empty),
so falsy means exactly a `null` cache entry. -/
def cacheMissTexts (db : DB) (drafts : List NewMemory) : List String :=
  let cachedEmbeddings := drafts.map (fun d => cacheLookup db d.description)
  ((drafts.zip cachedEmbeddings).filter (fun p => p.2.isNone)).map
    (fun p => p.1.description)

/-- `cachedEmbeddings.map((cached) => cached || missingEmbeddings.pop()!)`
(line 90) after `missingEmbeddings.reverse()` (line 88): each miss pops
the last element of the reversed fetched list; popping an exhausted list
yields `undefined` (`none`) — the `!` is only a type assertion. -/
def popSwap : List (Option (List ℚ)) → List (List ℚ) → List (Option (List ℚ))
  | [], _ => []
  | some v :: rest, ms => some v :: popSwap rest ms
  | none :: rest, ms =>
    match ms.getLast? with
    | none => none :: popSwap rest ms
    | some e => some e :: popSwap rest ms.dropLast

/-- Reference description of the pop-swap: fill the `none` slots left to
right with the fetched vectors in their original order. -/
def fillLeft : List (Option (List ℚ)) → List (List ℚ) → List (Option (List ℚ))
  | [], _ => []
  | some v :: rest, ms => some v :: fillLeft rest ms
  | none :: rest, [] => none :: fillLeft rest []
  | none :: rest, m :: ms => some m :: fillLeft rest ms

/-- The vectors the batch ends up assigning to the drafts, position by
position: the cached vector on a hit, else the next fetched vector. -/
def assignedVectors (db : DB) (drafts : List NewMemory)
    (vecs : List (List ℚ)) : List (Option (List ℚ)) :=
  fillLeft (drafts.map (fun d => cacheLookup db d.description)) vecs

/-- Convex argument validation of the `addMemories` internal mutation
(line 272, `v.array(v.object(NewMemoryWithEmbedding))`): every memory
must carry a number-array embedding; an `undefined` embedding rejects
the whole call before the handler runs. -/
def validateEmbeddings :
    List (NewMemory × Option (List ℚ) × JSNum) →
    Option (List (NewMemory × List ℚ × JSNum))
  | [] => some []
  | (d, some e, imp) :: rest =>
    (validateEmbeddings rest).map (fun v => (d, e, imp) :: v)
  | (_, none, _) :: _ => none

/-- The handler of the `addMemories` internal mutation (lines 271-282):
per memory, insert the embedding row then the memory row referencing it,
returning the embedding ids.  Convex mutations are transactional, and
validation already succeeded, so this always commits in full. -/
def commitMemories (now : ℚ) :
    ℕ → List (NewMemory × List ℚ × JSNum) →
    List ℕ × List EmbeddingDoc × List MemoryDoc
  | _, [] => ([], [], [])
  | nid, (d, emb, imp) :: rest =>
    let embRow : EmbeddingDoc :=
      { id := nid, playerId := d.playerId, text := d.description,
        embedding := emb, creationTime := now }
    let memRow : MemoryDoc :=
      { id := nid + 1, playerId := d.playerId, description := d.description,
        embeddingId := nid, importance := imp, data := d.data,
        creationTime := now }
    let r := commitMemories now (nid + 2) rest
    (nid :: r.1, embRow :: r.2.1, memRow :: r.2.2)

/-- The `addMemories` action (lines 77-136): cache lookup per draft,
one batch provider call for the misses (line 84-86, skipped when there
are none), the reverse/pop re-alignment, importance resolution, then the
`addMemories` mutation.  `embedBatch` is the embedding provider and
`complete` the chat model. -/
def addMemoriesAction (db : DB) (now : ℚ)
    (embedBatch : List String → List (List ℚ))
    (complete : String → String) (drafts : List NewMemory) :
    Except String (List ℕ × DB) :=
  let cachedEmbeddings := drafts.map (fun d => cacheLookup db d.description)
  let cacheMisses := cacheMissTexts db drafts
  let missingEmbeddings :=
    if cacheMisses.length != 0 then embedBatch cacheMisses else []
  let embeddings := popSwap cachedEmbeddings missingEmbeddings.reverse
  let withImportance :=
    (drafts.zip embeddings).map
      (fun p => (p.1, p.2, resolveImportance complete p.1))
  match validateEmbeddings withImportance with
  | none => .error ("ArgumentValidationError")
  | some validated =>
    let r := commitMemories now db.nextId validated
    .ok (r.1,
      { db with
        nextId := db.nextId + 2 * validated.length
        embeddings := db.embeddings ++ r.2.1
        memories := db.memories ++ r.2.2 })

/-! ### Conversation summarization (memory.ts lines 138-171, 320-379) -/

/-- The agent's most recent conversation-typed memory, any conversation
(`by_playerId_type` index, descending, `.first()`; lines 328-334). -/
def lastConversationMemoryOf (db : DB) (playerId : ℕ) : Option MemoryDoc :=
  lastMatching db.memories
    (fun m => m.playerId == playerId && m.data.isConversation)

/-- The early-exit test of line 336:
`lastSpokeTs && lastSpokeTs < (lastConversationMemory?._creationTime ?? 0)`.
A zero timestamp is falsy, so it skips the check. -/
def earlyReturnB (db : DB) (playerId : ℕ) (lastSpokeTs : Option ℚ) : Bool :=
  match lastSpokeTs with
  | none => false
  | some t =>
    (t != 0) &&
      decide (t < ((lastConversationMemoryOf db playerId).map
        (·.creationTime)).getD 0)

/-- `allMessages` (lines 341-352): talking journal entries of the
conversation, restricted to after the last conversation memory when that
memory is of this very conversation. -/
def allMessagesOf (db : DB) (playerId cid : ℕ) : List JournalEntry :=
  db.journal.filter (fun e =>
    e.conversationId == cid &&
    (match lastConversationMemoryOf db playerId with
     | some m =>
       if conversationIdOfData m.data == some cid then
         decide (m.creationTime < e.creationTime)
       else true
     | none => true) &&
    e.isTalking)

/-- The `else` branch of lines 361-373: look for a previous memory of
this conversation newer than the first in-scope message.  When
`allMessages` is empty, `allMessages[0]._creationTime` reads a property
of `undefined` and throws a `TypeError`. -/
def lastMemoryTsPrev (db : DB) (playerId cid : ℕ) : Except String ℚ :=
  match (allMessagesOf db playerId cid).head? with
  | none => .error ("TypeError: cannot read _creationTime of undefined")
  | some first =>
    .ok (((lastMatching db.memories (fun m =>
        m.playerId == playerId && m.data.isConversation &&
        decide (first.creationTime < m.creationTime) &&
        (conversationIdOfData m.data == some cid))).map
      (·.creationTime)).getD 0)

/-- `lastMemoryTs` (lines 358-374). -/
def lastMemoryTsOf (db : DB) (playerId cid : ℕ) : Except String ℚ :=
  match lastConversationMemoryOf db playerId with
  | some m =>
    if conversationIdOfData m.data == some cid then .ok m.creationTime
    else lastMemoryTsPrev db playerId cid
  | none => lastMemoryTsPrev db playerId cid

/-- Modelled from the spec: `clientMessageMapper` (`convex/chat.ts`, not
part of the core source) turns a talking entry into a client message
whose `ts` is the entry's creation time. -/
def clientMessage (e : JournalEntry) : Message :=
  { from_ := e.sender, to_ := e.audience, content := e.content,
    ts := e.creationTime }

/-- The `getRecentMessages` internal query (lines 320-379). -/
def getRecentMessagesM (db : DB) (playerId cid : ℕ)
    (lastSpokeTs : Option ℚ) : Except String (List Message) :=
  if earlyReturnB db playerId lastSpokeTs then .ok []
  else
    match lastMemoryTsOf db playerId cid with
    | .error e => .error e
    | .ok lastMemoryTs =>
      .ok (((allMessagesOf db playerId cid).map clientMessage).filter
        (fun m => decide (lastMemoryTs < m.ts) &&
          (m.from_ == playerId || m.to_.contains playerId)))

/-- Modelled from the spec: the summarization prompt (§4.5 — persona,
identity and the message transcript; built via `chatHistoryFromMessages`
of `convex/conversation.ts`, not part of the core source). -/
def summaryPrompt (playerName playerIdentity : String)
    (messages : List Message) : String :=
  playerName ++ (" ") ++ playerIdentity ++ (" ") ++
    String.join (messages.map (·.content)) ++ (" Summary:")

/-- `rememberConversation` (lines 138-171): fetch the unsummarized
messages, return `false` when there are none, else summarize via the
chat model and ingest one conversation-tagged memory through
`addMemories`, returning `true`. -/
def rememberConversationM (db : DB) (now : ℚ)
    (embedBatch : List String → List (List ℚ))
    (complete : String → String) (playerName : String) (playerId : ℕ)
    (playerIdentity : String) (conversationId : ℕ)
    (lastSpokeTs : Option ℚ) : Except String (Bool × DB) :=
  match getRecentMessagesM db playerId conversationId lastSpokeTs with
  | .error e => .error e
  | .ok messages =>
    if messages.isEmpty then .ok (false, db)
    else
      let description :=
        complete (summaryPrompt playerName playerIdentity messages)
      match addMemoriesAction db now embedBatch complete
          [{ playerId := playerId, description := description,
             data := .conversation conversationId, importance := none }] with
      | .error e => .error e
      | .ok (_, db') => .ok (true, db')

/-! ### Supporting lemmas: `mapExcept` -/

theorem mapExcept_ok_length {f : α → Except String β} :
    ∀ {l : List α} {l' : List β}, mapExcept f l = .ok l' → l'.length = l.length := by
  intro l
  induction l with
  | nil => intro l' h; simp [mapExcept] at h; simp [← h]
  | cons a as ih =>
    intro l' h
    simp only [mapExcept] at h
    cases hfa : f a with
    | error e => rw [hfa] at h; exact absurd h (by simp)
    | ok b =>
      rw [hfa] at h
      cases hrest : mapExcept f as with
      | error e => rw [hrest] at h; exact absurd h (by simp)
      | ok bs =>
        rw [hrest] at h
        cases h
        simp [ih hrest]

theorem mapExcept_ok_get {f : α → Except String β} :
    ∀ {l : List α} {l' : List β}, mapExcept f l = .ok l' →
      ∀ i (h : i < l.length) (h' : i < l'.length),
        f (l.get ⟨i, h⟩) = .ok (l'.get ⟨i, h'⟩) := by
  intro l
  induction l with
  | nil => intro l' _ i h; exact absurd h (by simp)
  | cons a as ih =>
    intro l' hm i h h'
    simp only [mapExcept] at hm
    cases hfa : f a with
    | error e => rw [hfa] at hm; exact absurd hm (by simp)
    | ok b =>
      rw [hfa] at hm
      cases hrest : mapExcept f as with
      | error e => rw [hrest] at hm; exact absurd hm (by simp)
      | ok bs =>
        rw [hrest] at hm
        cases hm
        cases i with
        | zero => simpa using hfa
        | succ j =>
          exact ih hrest j (by simpa using h) (by simpa using h')

theorem mapExcept_error_of_mem (f : α → Except String β) {a : α} {e : String} :
    ∀ {l : List α}, a ∈ l → f a = .error e →
      ∃ e', mapExcept f l = .error e' := by
  intro l
  induction l with
  | nil => intro h; exact absurd h (by simp)
  | cons b bs ih =>
    intro hmem hfa
    rcases List.mem_cons.mp hmem with rfl | hmem'
    · exact ⟨e, by simp [mapExcept, hfa]⟩
    · cases hfb : f b with
      | error e'' => exact ⟨e'', by simp [mapExcept, hfb]⟩
      | ok c =>
        rcases ih hmem' hfa with ⟨e', he'⟩
        exact ⟨e', by simp [mapExcept, hfb, he']⟩

/-! ### Supporting lemmas: the stable descending sort -/

/-- The ranking order the sorted list satisfies when every score is
real: strictly larger score first, ties resolved by the original
candidate position. -/
def rankedBefore (a b : ScoredItem) : Prop :=
  jsLtB b.overallScore a.overallScore = true ∨
    (a.overallScore = b.overallScore ∧ a.idx < b.idx)

theorem scoreGeJS_num (a b : ℚ) :
    scoreGeJS (.num a) (.num b) = decide (b ≤ a) := by
  simp only [scoreGeJS, comparatorPos, jsSub, jsLtB]
  by_cases h : b ≤ a
  · simp [h, show ¬((0:ℚ) < b - a) by linarith]
  · simp [h, show (0:ℚ) < b - a by linarith [lt_of_not_le h]]

theorem mem_insertDesc {x z : ScoredItem} :
    ∀ {l : List ScoredItem}, z ∈ insertDesc x l ↔ z = x ∨ z ∈ l := by
  intro l
  induction l with
  | nil => simp [insertDesc]
  | cons y ys ih =>
    simp only [insertDesc]
    by_cases h : scoreGeJS x.overallScore y.overallScore
    · rw [if_pos h]
      simp
    · rw [if_neg h]
      simp only [List.mem_cons, ih]
      tauto

theorem mem_sortDesc {z : ScoredItem} :
    ∀ {l : List ScoredItem}, z ∈ sortDesc l ↔ z ∈ l := by
  intro l
  induction l with
  | nil => simp [sortDesc]
  | cons x xs ih => simp [sortDesc, mem_insertDesc, ih]

/-- A real score is some rational. -/
theorem isReal_exists {s : JSNum} (h : s.isReal = true) : ∃ q, s = .num q := by
  cases s <;> simp_all [JSNum.isReal]

theorem rankedBefore_trans {a b c : ScoredItem}
    (ha : a.overallScore.isReal = true) (hb : b.overallScore.isReal = true)
    (hc : c.overallScore.isReal = true)
    (h1 : rankedBefore a b) (h2 : rankedBefore b c) : rankedBefore a c := by
  rcases isReal_exists ha with ⟨qa, hqa⟩
  rcases isReal_exists hb with ⟨qb, hqb⟩
  rcases isReal_exists hc with ⟨qc, hqc⟩
  rcases h1 with h1 | ⟨h1e, h1i⟩ <;> rcases h2 with h2 | ⟨h2e, h2i⟩
  · left
    rw [hqa, hqb] at h1
    rw [hqb, hqc] at h2
    rw [hqa, hqc]
    simp [jsLtB] at h1 h2 ⊢
    linarith
  · left
    rw [hqb, hqc] at h2e
    cases h2e
    rw [hqa, hqb] at h1
    rw [hqa, hqc]
    exact h1
  · left
    rw [hqa, hqb] at h1e
    cases h1e
    rw [hqb, hqc] at h2
    rw [hqa, hqc]
    exact h2
  · right
    exact ⟨h1e.trans h2e, h1i.trans h2i⟩

theorem pairwise_insertDesc (x : ScoredItem) :
    ∀ {l : List ScoredItem},
      x.overallScore.isReal = true →
      (∀ y ∈ l, y.overallScore.isReal = true) →
      (∀ y ∈ l, x.idx < y.idx) →
      List.Pairwise rankedBefore l →
      List.Pairwise rankedBefore (insertDesc x l) := by
  intro l
  induction l with
  | nil => intro _ _ _ _; simp [insertDesc, List.pairwise_cons]
  | cons y ys ih =>
    intro hxr hlr hlt hp
    rcases isReal_exists hxr with ⟨qx, hqx⟩
    rcases isReal_exists (hlr y (by simp)) with ⟨qy, hqy⟩
    rw [List.pairwise_cons] at hp
    simp only [insertDesc]
    by_cases hge : scoreGeJS x.overallScore y.overallScore
    · -- x is placed at the front
      have hyx : (qy : ℚ) ≤ qx := by
        rw [hqx, hqy, scoreGeJS_num] at hge
        simpa using hge
      have hxy : rankedBefore x y := by
        rcases lt_or_eq_of_le hyx with h | h
        · left; rw [hqx, hqy]; simpa [jsLtB] using h
        · right
          refine ⟨by rw [hqx, hqy, h], hlt y (by simp)⟩
      rw [if_pos hge, List.pairwise_cons]
      refine ⟨?_, List.pairwise_cons.mpr hp⟩
      intro z hz
      rcases List.mem_cons.mp hz with rfl | hz'
      · exact hxy
      · exact rankedBefore_trans hxr (hlr y (by simp))
          (hlr z (by simp [hz'])) hxy (hp.1 z hz')
    · -- x sinks past y
      have hxy : (qx : ℚ) < qy := by
        rw [hqx, hqy, scoreGeJS_num] at hge
        simpa using lt_of_not_le (by simpa using hge)
      rw [if_neg hge, List.pairwise_cons]
      constructor
      · intro z hz
        rcases mem_insertDesc.mp hz with rfl | hz'
        · left; rw [hqx, hqy]; simpa [jsLtB] using hxy
        · exact hp.1 z hz'
      · exact ih hxr (fun z hz => hlr z (by simp [hz]))
          (fun z hz => hlt z (by simp [hz])) hp.2

theorem pairwise_sortDesc :
    ∀ {l : List ScoredItem},
      (∀ y ∈ l, y.overallScore.isReal = true) →
      List.Pairwise (fun a b => a.idx < b.idx) l →
      List.Pairwise rankedBefore (sortDesc l) := by
  intro l
  induction l with
  | nil => intro _ _; simp [sortDesc]
  | cons x xs ih =>
    intro hlr hidx
    rw [List.pairwise_cons] at hidx
    refine pairwise_insertDesc x (hlr x (by simp)) ?_ ?_ ?_
    · intro y hy
      exact hlr y (by simp [mem_sortDesc.mp hy])
    · intro y hy
      exact hidx.1 y (mem_sortDesc.mp hy)
    · exact ih (fun z hz => hlr z (by simp [hz])) hidx.2

/-- The positions recorded by `scoreList` are strictly increasing and at
least the starting index. -/
theorem scoreList_idx (r1 r2 r3 : JSNum × JSNum) :
    ∀ (l : List (MemoryDoc × Candidate × JSNum)) (n : ℕ),
      List.Pairwise (fun a b => a.idx < b.idx) (scoreList r1 r2 r3 n l) ∧
        ∀ it ∈ scoreList r1 r2 r3 n l, n ≤ it.idx := by
  intro l
  induction l with
  | nil => intro n; simp [scoreList]
  | cons p rest ih =>
    intro n
    obtain ⟨hpw, hge⟩ := ih (n + 1)
    obtain ⟨m, c, r⟩ := p
    refine ⟨List.pairwise_cons.mpr ⟨?_, hpw⟩, ?_⟩
    · intro it hit
      exact lt_of_lt_of_le (Nat.lt_succ_self n) (hge it hit)
    · intro it hit
      rcases List.mem_cons.mp hit with rfl | hit'
      · exact le_refl n
      · exact (Nat.le_succ n).trans (hge it hit')

/-! ### Supporting lemmas: cache misses and the pop-swap -/

/-- The number of cache misses in a lookup column. -/
def noneCount (l : List (Option (List ℚ))) : ℕ :=
  (l.filter (fun o => o.isNone)).length

theorem noneCount_cons (o : Option (List ℚ)) (l : List (Option (List ℚ))) :
    noneCount (o :: l) = (if o.isNone then 1 else 0) + noneCount l := by
  cases o <;> simp [noneCount, List.filter, Nat.add_comm]

theorem cacheMissTexts_nil (db : DB) : cacheMissTexts db [] = [] := rfl

theorem cacheMissTexts_cons (db : DB) (d : NewMemory) (rest : List NewMemory) :
    cacheMissTexts db (d :: rest) =
      (if (cacheLookup db d.description).isNone then [d.description] else []) ++
        cacheMissTexts db rest := by
  simp only [cacheMissTexts, List.map_cons, List.zip_cons_cons, List.filter]
  cases h : cacheLookup db d.description <;> simp [h, List.zip]

theorem cacheMissTexts_length (db : DB) :
    ∀ (drafts : List NewMemory),
      (cacheMissTexts db drafts).length =
        noneCount (drafts.map (fun d => cacheLookup db d.description)) := by
  intro drafts
  induction drafts with
  | nil => simp [cacheMissTexts_nil, noneCount]
  | cons d rest ih =>
    rw [cacheMissTexts_cons, List.map_cons, noneCount_cons]
    cases h : cacheLookup db d.description <;> simp [h, ih, Nat.add_comm]

theorem popSwap_reverse :
    ∀ (cached : List (Option (List ℚ))) (ms : List (List ℚ)),
      popSwap cached ms.reverse = fillLeft cached ms := by
  intro cached
  induction cached with
  | nil => intro ms; rfl
  | cons o rest ih =>
    intro ms
    cases o with
    | some v => simp [popSwap, fillLeft, ih]
    | none =>
      cases ms with
      | nil => simp [popSwap, fillLeft, ← ih []]
      | cons m ms' =>
        simp [popSwap, fillLeft, List.getLast?_reverse, List.dropLast_reverse, ih]

theorem fillLeft_length :
    ∀ (cached : List (Option (List ℚ))) (ms : List (List ℚ)),
      (fillLeft cached ms).length = cached.length := by
  intro cached
  induction cached with
  | nil => intro ms; rfl
  | cons o rest ih =>
    intro ms
    cases o with
    | some v => simp [fillLeft, ih]
    | none => cases ms <;> simp [fillLeft, ih]

theorem fillLeft_of_noneCount_zero :
    ∀ (cached : List (Option (List ℚ))) (ms : List (List ℚ)),
      noneCount cached = 0 → fillLeft cached ms = cached := by
  intro cached
  induction cached with
  | nil => intro ms _; rfl
  | cons o rest ih =>
    intro ms h
    rw [noneCount_cons] at h
    cases o with
    | some v => simp [fillLeft, ih ms (by simpa using h)]
    | none => simp at h

theorem fillLeft_all_isSome :
    ∀ (cached : List (Option (List ℚ))) (ms : List (List ℚ)),
      noneCount cached ≤ ms.length →
      ∀ x ∈ fillLeft cached ms, x.isSome := by
  intro cached
  induction cached with
  | nil => intro ms _ x hx; exact absurd hx (by simp [fillLeft])
  | cons o rest ih =>
    intro ms h x hx
    rw [noneCount_cons] at h
    cases o with
    | some v =>
      simp only [fillLeft, List.mem_cons] at hx
      rcases hx with rfl | hx'
      · rfl
      · exact ih ms (by simpa using h) x hx'
    | none =>
      cases ms with
      | nil => simp at h
      | cons m ms' =>
        simp only [fillLeft, List.mem_cons] at hx
        simp only [Option.isNone_none, if_pos, List.length_cons] at h
        rcases hx with rfl | hx'
        · rfl
        · exact ih ms' (by omega) x hx'

theorem fillLeft_exists_none :
    ∀ (cached : List (Option (List ℚ))) (ms : List (List ℚ)),
      ms.length < noneCount cached →
      ∃ x ∈ fillLeft cached ms, x = none := by
  intro cached
  induction cached with
  | nil => intro ms h; simp [noneCount] at h
  | cons o rest ih =>
    intro ms h
    rw [noneCount_cons] at h
    cases o with
    | some v =>
      rcases ih ms (by simpa using h) with ⟨x, hx, he⟩
      exact ⟨x, by simp [fillLeft, hx], he⟩
    | none =>
      cases ms with
      | nil => exact ⟨none, by simp [fillLeft], rfl⟩
      | cons m ms' =>
        simp only [Option.isNone_none, if_pos, List.length_cons] at h
        rcases ih ms' (by omega) with ⟨x, hx, he⟩
        exact ⟨x, by simp [fillLeft, hx], he⟩

theorem zip_exists_of_right {α β : Type} {b : β} :
    ∀ {l' : List β} {l : List α}, l.length = l'.length → b ∈ l' →
      ∃ a, (a, b) ∈ l.zip l' := by
  intro l'
  induction l' with
  | nil => intro l _ h; exact absurd h (by simp)
  | cons c cs ih =>
    intro l hlen hmem
    cases l with
    | nil => simp at hlen
    | cons a as =>
      rcases List.mem_cons.mp hmem with rfl | hmem'
      · exact ⟨a, by simp⟩
      · rcases ih (by simpa using hlen) hmem' with ⟨a', ha'⟩
        exact ⟨a', by simp [ha']⟩

/-! ### Supporting lemmas: validation and commit -/

theorem validateEmbeddings_none :
    ∀ {l : List (NewMemory × Option (List ℚ) × JSNum)},
      (∃ x ∈ l, x.2.1 = none) → validateEmbeddings l = none := by
  intro l
  induction l with
  | nil => intro h; simp at h
  | cons x rest ih =>
    intro h
    obtain ⟨d, oe, imp⟩ := x
    rcases h with ⟨y, hy, hnone⟩
    rcases List.mem_cons.mp hy with rfl | hy'
    · cases oe with
      | none => rfl
      | some e => exact absurd hnone (by simp)
    · cases oe with
      | none => rfl
      | some e => simp [validateEmbeddings, ih ⟨y, hy', hnone⟩]

theorem validateEmbeddings_some_of_all :
    ∀ {l : List (NewMemory × Option (List ℚ) × JSNum)},
      (∀ x ∈ l, x.2.1.isSome) → ∃ v, validateEmbeddings l = some v := by
  intro l
  induction l with
  | nil => intro _; exact ⟨[], rfl⟩
  | cons x rest ih =>
    intro h
    obtain ⟨d, oe, imp⟩ := x
    cases oe with
    | none => exact absurd (h (d, none, imp) (by simp)) (by simp)
    | some e =>
      rcases ih (fun y hy => h y (by simp [hy])) with ⟨v, hv⟩
      exact ⟨(d, e, imp) :: v, by simp [validateEmbeddings, hv]⟩

theorem validateEmbeddings_proj :
    ∀ {l : List (NewMemory × Option (List ℚ) × JSNum)}
      {v : List (NewMemory × List ℚ × JSNum)},
      validateEmbeddings l = some v →
      v.map (fun t => (t.1.description, t.2.1)) =
        l.map (fun t => (t.1.description, t.2.1.getD [])) := by
  intro l
  induction l with
  | nil =>
    intro v h
    simp only [validateEmbeddings] at h
    cases h
    rfl
  | cons x rest ih =>
    intro v h
    obtain ⟨d, oe, imp⟩ := x
    cases oe with
    | none => exact absurd h (by simp [validateEmbeddings])
    | some e =>
      simp only [validateEmbeddings] at h
      cases hrest : validateEmbeddings rest with
      | none => rw [hrest] at h; simp at h
      | some v' =>
        rw [hrest] at h
        simp only [Option.map] at h
        cases h
        simp [ih hrest]

theorem commitMemories_embs_proj (now : ℚ) :
    ∀ (l : List (NewMemory × List ℚ × JSNum)) (nid : ℕ),
      ((commitMemories now nid l).2.1).map (fun r => (r.text, r.embedding)) =
        l.map (fun t => (t.1.description, t.2.1)) := by
  intro l
  induction l with
  | nil => intro nid; rfl
  | cons x rest ih =>
    intro nid
    obtain ⟨d, emb, imp⟩ := x
    simp [commitMemories, ih]

/-! ### Supporting lemmas: positional alignment of the assigned vectors -/

theorem cacheMissTexts_cons_hit {db : DB} {d : NewMemory} {v : List ℚ}
    (rest : List NewMemory) (h : cacheLookup db d.description = some v) :
    cacheMissTexts db (d :: rest) = cacheMissTexts db rest := by
  rw [cacheMissTexts_cons]
  simp [h]

theorem cacheMissTexts_cons_miss {db : DB} {d : NewMemory}
    (rest : List NewMemory) (h : cacheLookup db d.description = none) :
    cacheMissTexts db (d :: rest) = d.description :: cacheMissTexts db rest := by
  rw [cacheMissTexts_cons]
  simp [h]

theorem assignedVectors_cons_hit {db : DB} {d : NewMemory} {v : List ℚ}
    (rest : List NewMemory) (vecs : List (List ℚ))
    (h : cacheLookup db d.description = some v) :
    assignedVectors db (d :: rest) vecs =
      some v :: assignedVectors db rest vecs := by
  simp [assignedVectors, h, fillLeft]

theorem assignedVectors_cons_miss_nil {db : DB} {d : NewMemory}
    (rest : List NewMemory) (h : cacheLookup db d.description = none) :
    assignedVectors db (d :: rest) [] =
      none :: assignedVectors db rest [] := by
  simp [assignedVectors, h, fillLeft]

theorem assignedVectors_cons_miss_cons {db : DB} {d : NewMemory}
    (rest : List NewMemory) (w : List ℚ) (vecs' : List (List ℚ))
    (h : cacheLookup db d.description = none) :
    assignedVectors db (d :: rest) (w :: vecs') =
      some w :: assignedVectors db rest vecs' := by
  simp [assignedVectors, h, fillLeft]

/-- Each cache-missing draft receives, in order, exactly the successive
fetched vectors: pairing the missing drafts' descriptions with their
assigned vectors yields the miss list zipped with the fetched vectors. -/
theorem fill_alignment (db : DB) :
    ∀ (drafts : List NewMemory) (vecs : List (List ℚ)),
      (cacheMissTexts db drafts).length ≤ vecs.length →
      ((drafts.zip (assignedVectors db drafts vecs)).filter
        (fun p => (cacheLookup db p.1.description).isNone)).map
          (fun p => (p.1.description, p.2)) =
        (cacheMissTexts db drafts).zip
          ((vecs.take (cacheMissTexts db drafts).length).map some) := by
  intro drafts
  induction drafts with
  | nil =>
    intro vecs _
    simp [cacheMissTexts_nil, assignedVectors, fillLeft]
  | cons d rest ih =>
    intro vecs hlen
    cases h : cacheLookup db d.description with
    | some v =>
      rw [cacheMissTexts_cons_hit rest h] at hlen ⊢
      rw [assignedVectors_cons_hit rest vecs h]
      simp only [List.zip_cons_cons, List.filter, h, Option.isNone_some]
      exact ih vecs hlen
    | none =>
      rw [cacheMissTexts_cons_miss rest h] at hlen ⊢
      cases vecs with
      | nil => simp at hlen
      | cons w vecs' =>
        rw [assignedVectors_cons_miss_cons rest w vecs' h]
        simp only [List.zip_cons_cons, List.filter, h, Option.isNone_none,
          List.map_cons, List.length_cons, List.take_succ_cons]
        refine congrArg (List.cons (d.description, some w)) ?_
        exact ih vecs' (by simpa using hlen)

/-- A draft whose description hits the cache is assigned exactly the
cached vector. -/
theorem fill_hit (db : DB) :
    ∀ (drafts : List NewMemory) (vecs : List (List ℚ))
      (p : NewMemory × Option (List ℚ)),
      p ∈ drafts.zip (assignedVectors db drafts vecs) →
      ∀ v, cacheLookup db p.1.description = some v → p.2 = some v := by
  intro drafts
  induction drafts with
  | nil =>
    intro vecs p hp
    simp [assignedVectors, fillLeft] at hp
  | cons d rest ih =>
    intro vecs p hp v hv
    cases h : cacheLookup db d.description with
    | some v0 =>
      rw [assignedVectors_cons_hit rest vecs h, List.zip_cons_cons] at hp
      rcases List.mem_cons.mp hp with rfl | hp'
      · simp only at hv ⊢
        rw [h] at hv
        cases hv
        rfl
      · exact ih vecs p hp' v hv
    | none =>
      cases vecs with
      | nil =>
        rw [assignedVectors_cons_miss_nil rest h, List.zip_cons_cons] at hp
        rcases List.mem_cons.mp hp with rfl | hp'
        · simp only at hv
          rw [h] at hv
          cases hv
        · exact ih [] p hp' v hv
      | cons w vecs' =>
        rw [assignedVectors_cons_miss_cons rest w vecs' h,
          List.zip_cons_cons] at hp
        rcases List.mem_cons.mp hp with rfl | hp'
        · simp only at hv
          rw [h] at hv
          cases hv
        · exact ih vecs' p hp' v hv

/-- The pop-swap over the (possibly skipped) provider call equals the
left-to-right fill with the provider's vectors for the miss list. -/
theorem popSwap_missing_eq (db : DB) (drafts : List NewMemory)
    (eb : List String → List (List ℚ)) :
    popSwap (drafts.map (fun d => cacheLookup db d.description))
      (if (cacheMissTexts db drafts).length != 0 then
        eb (cacheMissTexts db drafts) else []).reverse =
    assignedVectors db drafts (eb (cacheMissTexts db drafts)) := by
  by_cases h : (cacheMissTexts db drafts).length = 0
  · have h0 : noneCount (drafts.map fun d => cacheLookup db d.description) = 0 := by
      rw [← cacheMissTexts_length]
      exact h
    rw [if_neg (by simp [h]), popSwap_reverse, assignedVectors,
      fillLeft_of_noneCount_zero _ _ h0, fillLeft_of_noneCount_zero _ _ h0]
  · rw [if_pos (by simp [h]), popSwap_reverse]
    rfl

/-- `addMemoriesAction` in canonical form: validation of the assigned
vectors, then the transactional commit. -/
theorem addMemoriesAction_eq (db : DB) (now : ℚ)
    (eb : List String → List (List ℚ)) (comp : String → String)
    (drafts : List NewMemory) :
    addMemoriesAction db now eb comp drafts =
      match validateEmbeddings
          ((drafts.zip (assignedVectors db drafts
              (eb (cacheMissTexts db drafts)))).map
            (fun p => (p.1, p.2, resolveImportance comp p.1))) with
      | none => .error ("ArgumentValidationError")
      | some validated =>
        .ok ((commitMemories now db.nextId validated).1,
          { db with
            nextId := db.nextId + 2 * validated.length
            embeddings := db.embeddings ++
              (commitMemories now db.nextId validated).2.1
            memories := db.memories ++
              (commitMemories now db.nextId validated).2.2 }) := by
  simp only [addMemoriesAction]
  rw [popSwap_missing_eq db drafts eb]

/-! ### Concrete stores and inputs used by the claim theorems -/

/-- An empty store. -/
def emptyDb : DB :=
  { nextId := 0, memories := [], embeddings := [], memoryAccesses := [],
    journal := [] }

/-- A store holding one access row for memory 1 (used for the recency
evaluations). -/
def dbRec : DB :=
  { nextId := 0, memories := [], embeddings := [],
    memoryAccesses := [{ memoryId := 1, creationTime := 0 }], journal := [] }

/-- Memory 1, last accessed at time 0. -/
def memRecA : MemoryDoc :=
  { id := 1, playerId := 1, description := "a", embeddingId := 5,
    importance := .num 5, data := .other "o", creationTime := 0 }

/-- Memory 2: never accessed, created long in the past. -/
def memRecB : MemoryDoc :=
  { id := 2, playerId := 1, description := "b", embeddingId := 6,
    importance := .num 5, data := .other "o", creationTime := -360000000 }

/-- Memory 3: never accessed, created at a very different time. -/
def memRecC : MemoryDoc :=
  { id := 3, playerId := 1, description := "c", embeddingId := 7,
    importance := .num 5, data := .other "o", creationTime := 7200000 }

/-- First candidate memory of the tied-importance store. -/
def memNanA : MemoryDoc :=
  { id := 1, playerId := 1, description := "a", embeddingId := 101,
    importance := .num 5, data := .other "o", creationTime := 0 }

/-- Second candidate memory of the tied-importance store. -/
def memNanB : MemoryDoc :=
  { id := 2, playerId := 1, description := "b", embeddingId := 102,
    importance := .num 5, data := .other "o", creationTime := 0 }

/-- A store whose two candidate memories tie on importance (and, having
no access rows, also on recency). -/
def dbNan : DB :=
  { nextId := 0, memories := [memNanA, memNanB], embeddings := [],
    memoryAccesses := [], journal := [] }

/-- Candidates with distinct relevance scores for the tied store. -/
def candsNan : List Candidate :=
  [⟨101, .num (9 / 10)⟩, ⟨102, .num (1 / 2)⟩]

/-- First memory of the non-degenerate ranking store: importance 9,
accessed at time 0. -/
def m1ex : MemoryDoc :=
  { id := 10, playerId := 1, description := "a", embeddingId := 1,
    importance := .num 9, data := .other "o", creationTime := 0 }

/-- Second memory of the non-degenerate ranking store: importance 1,
never accessed. -/
def m2ex : MemoryDoc :=
  { id := 20, playerId := 1, description := "b", embeddingId := 2,
    importance := .num 1, data := .other "o", creationTime := 0 }

/-- A store in which relevance, importance and recency all have
non-degenerate ranges over the two candidates. -/
def db5 : DB :=
  { nextId := 100, memories := [m1ex, m2ex], embeddings := [],
    memoryAccesses := [{ memoryId := 10, creationTime := 0 }],
    journal := [] }

/-- The candidates of the non-degenerate ranking run. -/
def cands5 : List Candidate :=
  [⟨1, .num (9 / 10)⟩, ⟨2, .num (1 / 2)⟩]

/-- A draft with unset importance. -/
def draftNoImp : NewMemory :=
  { playerId := 1, description := "x", data := .other "o",
    importance := none }

/-- A draft with explicit importance. -/
def draftExp : NewMemory :=
  { playerId := 1, description := "x", data := .other "o",
    importance := some (.num 3) }

/-- A draft whose description is shared by several batch entries. -/
def draftDup : NewMemory :=
  { playerId := 1, description := "dup", data := .other "o",
    importance := some (.num 1) }

/-! ### C1 -/

/-- C1: the spec claims the recency signal is a strictly decreasing
exponential decay `0.99 ^ hours` of the whole hours since the last
MemoryAccess, falling back to the Memory's creation time when no access
exists.  The code instead evaluates the JS bitwise XOR `0.99 ^ hours`,
which equals the elapsed whole hours themselves (strictly increasing:
1 after one hour, 2 after two, while true decay would give 0.99 then
0.9801), and returns the constant 1 — ignoring the creation time — for
a candidate with no MemoryAccess. -/
theorem c1_recency_code_bug :
    recencyScoreOf dbRec 3600000 memRecA = .num 1 ∧
    recencyScoreOf dbRec 7200000 memRecA = .num 2 ∧
    ((99 : ℚ) / 100) ^ (2 : ℕ) < ((99 : ℚ) / 100) ^ (1 : ℕ) ∧
    recencyScoreOf dbRec 7200000 memRecB = .num 1 ∧
    recencyScoreOf dbRec 7200000 memRecC = .num 1 ∧
    memRecB.creationTime ≠ memRecC.creationTime := by
  refine ⟨?_, ?_, ?_, ?_, ?_, ?_⟩
  · with_unfolding_all rfl
  · with_unfolding_all rfl
  · norm_num
  · with_unfolding_all rfl
  · with_unfolding_all rfl
  · with_unfolding_all decide

/-! ### C2 -/

/-- C2: the spec claims `normalize` yields 0 when `max == min`, so
composite scores are always well-defined numbers.  The code does not
guard that case: `(5 - 5) / (5 - 5)` evaluates to `0/0 = NaN`, and with
two candidates tying on importance every composite score in
`accessMemories` becomes `NaN`. -/
theorem c2_normalize_nan_code_bug :
    normalize (.num 5) (.num 5, .num 5) = .nan ∧
    makeRange [.num 5, .num 5] = (.num 5, .num 5) ∧
    scoreCandidates dbNan 1000 1 candsNan =
      .ok [⟨memNanA, .nan, 0⟩, ⟨memNanB, .nan, 1⟩] := by
  refine ⟨?_, ?_, ?_⟩
  · with_unfolding_all rfl
  · with_unfolding_all rfl
  · with_unfolding_all rfl

/-! ### C3 -/

/-- C3: the spec claims the stored importance is the first digit found
in the response, with the general numeric parse only as fallback.  In
the code the first-digit loop's result is dead — line 116 overwrites it
unconditionally with `parseFloat(importanceRaw)` — so for the response
"a8" the loop finds 8 but the stored importance is the `NaN` fallback 5. -/
theorem c3_importance_parse_code_bug :
    firstDigitLoop ("a8") = .num 8 ∧
    jsParseFloat ("a8") = .nan ∧
    importanceFromResponse ("a8") = .num 5 ∧
    resolveImportance (fun _ => "a8") draftNoImp = .num 5 := by
  refine ⟨?_, ?_, ?_, ?_⟩
  · with_unfolding_all rfl
  · with_unfolding_all rfl
  · with_unfolding_all rfl
  · with_unfolding_all rfl

/-! ### C7 -/

/-- The memory row created by ingesting `draftNoImp` with a chat
response of "42". -/
def memImp42 : MemoryDoc :=
  { id := 1, playerId := 1, description := "x", embeddingId := 0,
    importance := .num 42, data := .other "o", creationTime := 0 }

/-- The embedding row created alongside `memImp42`. -/
def embImp42 : EmbeddingDoc :=
  { id := 0, playerId := 1, text := "x", embedding := [1],
    creationTime := 0 }

/-- The store after ingesting `draftNoImp` with a chat response of
"42". -/
def dbImp42 : DB :=
  { nextId := 2, memories := [memImp42], embeddings := [embImp42],
    memoryAccesses := [], journal := [] }

/-- C7 counterexample: a chat response of "42" makes `addMemories` store
importance 42, outside the claimed range [0, 9]. -/
theorem c7_importance_range_counterexample :
    importanceFromResponse ("42") = .num 42 ∧
    addMemoriesAction emptyDb 0 (fun _ => [[1]]) (fun _ => "42")
      [draftNoImp] = .ok ([0], dbImp42) ∧
    dbImp42.memories.map (fun m => m.importance) = [.num 42] ∧
    ¬((42 : ℚ) ≤ 9) := by
  refine ⟨?_, ?_, ?_, ?_⟩
  · with_unfolding_all rfl
  · with_unfolding_all rfl
  · with_unfolding_all rfl
  · norm_num

/-- C7 (amended): for a draft with unset importance the stored value is
never `NaN` — it is the full response's `parseFloat` or the fallback 5 —
but it is not clamped to [0, 9]; a draft with explicit importance is
stored unvalidated. -/
theorem c7_amended_importance_never_nan :
    (∀ raw : String, importanceFromResponse raw ≠ .nan) ∧
    (∀ (complete : String → String) (d : NewMemory) (v : JSNum),
      d.importance = some v → resolveImportance complete d = v) := by
  constructor
  · intro raw
    simp only [importanceFromResponse]
    cases h : jsParseFloat raw <;> simp [h]
  · intro complete d v h
    simp only [resolveImportance, h]

/-- A draft with explicit importance 7. -/
def draftExp7 : NewMemory :=
  { playerId := 1, description := "x", data := .other "o",
    importance := some (.num 7) }

/-- Witness: the amended C7 theorem applied at a concrete draft with
explicit importance 7 and at a concrete response. -/
theorem c7_amended_witness :
    resolveImportance (fun _ => "") draftExp7 = .num 7 ∧
    importanceFromResponse ("whatever") ≠ .nan :=
  ⟨c7_amended_importance_never_nan.2 (fun _ => "") draftExp7 (.num 7) rfl,
    c7_amended_importance_never_nan.1 ("whatever")⟩

/-! ### C6 -/

/-- C6 counterexample: a batch of two drafts sharing one uncached
description sends that description to the provider twice — the miss
list is not deduplicated. -/
theorem c6_duplicate_texts_counterexample :
    cacheMissTexts emptyDb [draftDup, draftDup] = ["dup", "dup"] ∧
    (cacheMissTexts emptyDb [draftDup, draftDup]).count ("dup") = 2 := by
  refine ⟨?_, ?_⟩
  · with_unfolding_all rfl
  · with_unfolding_all rfl

/-- The miss list is the description column of the cache-missing drafts
in input order (duplicates included). -/
theorem cacheMissTexts_eq_filter (db : DB) :
    ∀ drafts : List NewMemory,
      cacheMissTexts db drafts =
        (drafts.filter (fun d => (cacheLookup db d.description).isNone)).map
          (fun d => d.description) := by
  intro drafts
  induction drafts with
  | nil => rfl
  | cons d rest ih =>
    cases h : cacheLookup db d.description with
    | some v =>
      rw [cacheMissTexts_cons_hit rest h]
      simp [List.filter_cons, h, ih]
    | none =>
      rw [cacheMissTexts_cons_miss rest h]
      simp [List.filter_cons, h, ih]

/-- C6 (amended): the texts sent to the provider are exactly the
descriptions of the cache-missing drafts in input order — one occurrence
per missing draft, so duplicates are repeated — and when every
description hits the cache (in particular for an empty batch) the list
is empty and the provider is never consulted: the whole ingestion is
independent of the provider. -/
theorem c6_amended_cache_misses (db : DB) (now : ℚ)
    (eb eb' : List String → List (List ℚ)) (comp : String → String)
    (drafts : List NewMemory) :
    cacheMissTexts db drafts =
      (drafts.filter (fun d => (cacheLookup db d.description).isNone)).map
        (fun d => d.description) ∧
    ((∀ d ∈ drafts, (cacheLookup db d.description).isSome) →
      cacheMissTexts db drafts = [] ∧
      addMemoriesAction db now eb comp drafts =
        addMemoriesAction db now eb' comp drafts) := by
  refine ⟨cacheMissTexts_eq_filter db drafts, ?_⟩
  intro hall
  have hmiss : cacheMissTexts db drafts = [] := by
    rw [cacheMissTexts_eq_filter]
    rw [List.filter_eq_nil_iff.mpr]
    · rfl
    · intro d hd
      simp only [Option.isNone_iff_eq_none]
      rcases Option.isSome_iff_exists.mp (hall d hd) with ⟨v, hv⟩
      simp [hv]
  have h0 : noneCount (drafts.map fun d => cacheLookup db d.description) = 0 := by
    rw [← cacheMissTexts_length, hmiss]
    rfl
  have hassign : ∀ f : List String → List (List ℚ),
      assignedVectors db drafts (f []) =
        drafts.map (fun d => cacheLookup db d.description) := by
    intro f
    rw [assignedVectors]
    exact fillLeft_of_noneCount_zero _ _ h0
  refine ⟨hmiss, ?_⟩
  rw [addMemoriesAction_eq, addMemoriesAction_eq, hmiss, hassign eb,
    hassign eb']

/-- A cached embedding row for the text "dup". -/
def embDup : EmbeddingDoc :=
  { id := 0, playerId := 1, text := "dup", embedding := [7],
    creationTime := 0 }

/-- A cache store holding an embedding for the text "dup". -/
def dbCacheDup : DB :=
  { nextId := 1, memories := [], embeddings := [embDup],
    memoryAccesses := [], journal := [] }

/-- Witness: the amended C6 theorem applied at a store that caches the
batch's only description; ingestion is then provider-independent. -/
theorem c6_amended_witness :
    cacheMissTexts dbCacheDup [draftDup] = [] ∧
    addMemoriesAction dbCacheDup 0 (fun _ => [[1]]) (fun _ => "")
      [draftDup] =
      addMemoriesAction dbCacheDup 0 (fun _ => [[2], [3]]) (fun _ => "")
        [draftDup] :=
  (c6_amended_cache_misses dbCacheDup 0 (fun _ => [[1]])
    (fun _ => [[2], [3]]) (fun _ => "") [draftDup]).2
    (by
      intro d hd
      rw [List.mem_singleton.mp hd]
      with_unfolding_all rfl)

/-! ### C4 -/

/-- The memory row committed in the over-count scenario. -/
def memXover : MemoryDoc :=
  { id := 1, playerId := 1, description := "x", embeddingId := 0,
    importance := .num 3, data := .other "o", creationTime := 0 }

/-- The embedding row committed in the over-count scenario (built from
the provider's FIRST vector; the extra one is dropped). -/
def embXover : EmbeddingDoc :=
  { id := 0, playerId := 1, text := "x", embedding := [1],
    creationTime := 0 }

/-- The store after the over-count ingestion. -/
def dbXover : DB :=
  { nextId := 2, memories := [memXover], embeddings := [embXover],
    memoryAccesses := [], journal := [] }

/-- C4 counterexample: the provider returns TWO vectors for a batch with
ONE uncached description, and `addMemories` does not fail — it commits
the pair (using the first vector, dropping the extra) and returns
normally, contradicting the claim that any count mismatch fails the
whole batch. -/
theorem c4_overcount_succeeds_counterexample :
    cacheMissTexts emptyDb [draftExp] = ["x"] ∧
    addMemoriesAction emptyDb 0 (fun _ => [[1], [2]]) (fun _ => "")
      [draftExp] = .ok ([0], dbXover) := by
  refine ⟨?_, ?_⟩
  · with_unfolding_all rfl
  · with_unfolding_all rfl

/-- C4 (amended): when the provider returns FEWER vectors than uncached
descriptions, the whole batch fails (argument validation rejects the
`undefined` embedding before anything is committed); when it returns at
least as many, the batch succeeds, extras are ignored, and no draft is
assigned an embedding belonging to a different description: the new
embedding rows pair each draft's description with its assigned vector,
the cache-missing drafts receive, in order, exactly the provider's
leading vectors (each being the vector requested for that very
description), and every cache-hitting draft keeps its cached vector. -/
theorem c4_amended_provider_count (db : DB) (now : ℚ)
    (eb : List String → List (List ℚ)) (comp : String → String)
    (drafts : List NewMemory) :
    ((eb (cacheMissTexts db drafts)).length <
        (cacheMissTexts db drafts).length →
      addMemoriesAction db now eb comp drafts =
        .error ("ArgumentValidationError")) ∧
    ((cacheMissTexts db drafts).length ≤
        (eb (cacheMissTexts db drafts)).length →
      (∃ ids db', addMemoriesAction db now eb comp drafts = .ok (ids, db') ∧
        db'.embeddings.map (fun r => (r.text, r.embedding)) =
          db.embeddings.map (fun r => (r.text, r.embedding)) ++
            (drafts.zip (assignedVectors db drafts
                (eb (cacheMissTexts db drafts)))).map
              (fun p => (p.1.description, p.2.getD []))) ∧
      ((drafts.zip (assignedVectors db drafts
          (eb (cacheMissTexts db drafts)))).filter
            (fun p => (cacheLookup db p.1.description).isNone)).map
          (fun p => (p.1.description, p.2)) =
        (cacheMissTexts db drafts).zip
          (((eb (cacheMissTexts db drafts)).take
            (cacheMissTexts db drafts).length).map some)) ∧
    (∀ p ∈ drafts.zip (assignedVectors db drafts
        (eb (cacheMissTexts db drafts))),
      ∀ v, cacheLookup db p.1.description = some v → p.2 = some v) := by
  refine ⟨?_, ?_, fill_hit db drafts _⟩
  · intro hlt
    rw [addMemoriesAction_eq]
    have hnone : ∃ oe ∈ assignedVectors db drafts
        (eb (cacheMissTexts db drafts)), oe = none := by
      rw [assignedVectors]
      refine fillLeft_exists_none _ _ ?_
      rw [← cacheMissTexts_length]
      exact hlt
    rcases hnone with ⟨oe, hmem, rfl⟩
    have hlen : drafts.length = (assignedVectors db drafts
        (eb (cacheMissTexts db drafts))).length := by
      rw [assignedVectors, fillLeft_length, List.length_map]
    rcases zip_exists_of_right hlen hmem with ⟨a, ha⟩
    have hx := List.mem_map_of_mem
      (fun p : NewMemory × Option (List ℚ) =>
        (p.1, p.2, resolveImportance comp p.1)) ha
    rw [validateEmbeddings_none ⟨_, hx, rfl⟩]
  · intro hle
    rw [addMemoriesAction_eq]
    have hall : ∀ x ∈ (drafts.zip (assignedVectors db drafts
        (eb (cacheMissTexts db drafts)))).map
          (fun p => (p.1, p.2, resolveImportance comp p.1)),
        x.2.1.isSome := by
      intro x hx
      rcases List.mem_map.mp hx with ⟨p, hp, rfl⟩
      refine fillLeft_all_isSome _ _ ?_ _ (List.of_mem_zip hp).2
      rw [← cacheMissTexts_length]
      exact hle
    rcases validateEmbeddings_some_of_all hall with ⟨v, hv⟩
    rw [hv]
    refine ⟨⟨_, _, rfl, ?_⟩, fill_alignment db drafts _ hle⟩
    show (db.embeddings ++ (commitMemories now db.nextId v).2.1).map
      (fun r => (r.text, r.embedding)) = _
    rw [List.map_append, commitMemories_embs_proj now v db.nextId,
      validateEmbeddings_proj hv, List.map_map]
    rfl

/-- Witness: the amended C4 theorem applied at a too-short provider
(whole batch fails) and at an exact-count provider (batch succeeds). -/
theorem c4_amended_witness :
    addMemoriesAction emptyDb 0 (fun _ => []) (fun _ => "") [draftExp] =
      .error ("ArgumentValidationError") ∧
    (∃ ids db', addMemoriesAction emptyDb 0 (fun _ => [[5]]) (fun _ => "")
      [draftExp] = .ok (ids, db')) := by
  have hm : cacheMissTexts emptyDb [draftExp] = ["x"] := by
    with_unfolding_all rfl
  constructor
  · exact (c4_amended_provider_count emptyDb 0 (fun _ => []) (fun _ => "")
      [draftExp]).1 (by rw [hm]; simp)
  · obtain ⟨⟨ids, db', hok, _⟩, _⟩ :=
      (c4_amended_provider_count emptyDb 0 (fun _ => [[5]]) (fun _ => "")
        [draftExp]).2.1 (by rw [hm]; simp)
    exact ⟨ids, db', hok⟩

/-! ### C5 -/

/-- C5 (amended): `accessMemories` returns at most `count` results and
appends exactly one MemoryAccess row per returned entry (and none for
the rest, no other table changing); the output is the stable descending
sort truncated to `count`; and whenever every composite score is a real
number the sorted list is strictly ordered by descending score with ties
broken by original candidate position.  (When some signal ties across
all candidates, every composite score is `NaN` — see the counterexample
— and the order falls back to the input order.) -/
theorem c5_amended_ranking (db : DB) (ts : ℚ) (pid : ℕ)
    (candidates : List Candidate) (count : ℕ)
    (scored : List ScoredItem) (out : List (MemoryDoc × JSNum)) (db' : DB) :
    scoreCandidates db ts pid candidates = .ok scored →
    accessMemoriesM db ts pid candidates count = .ok (out, db') →
    out.length ≤ count ∧
    out = ((sortDesc scored).take count).map
      (fun it => (it.memory, it.overallScore)) ∧
    db'.memories = db.memories ∧
    db'.embeddings = db.embeddings ∧
    db'.journal = db.journal ∧
    db'.nextId = db.nextId ∧
    db'.memoryAccesses = db.memoryAccesses ++
      out.map (fun p => { memoryId := p.1.id, creationTime := ts }) ∧
    ((∀ it ∈ scored, it.overallScore.isReal = true) →
      List.Pairwise rankedBefore (sortDesc scored)) := by
  intro hscore hacc
  have hidx : List.Pairwise (fun a b => a.idx < b.idx) scored := by
    unfold scoreCandidates at hscore
    cases hrel : mapExcept
        (fun c => getMemoryByEmbeddingId db pid c.embeddingId) candidates with
    | error e => rw [hrel] at hscore; exact absurd hscore (by simp)
    | ok rel =>
      rw [hrel] at hscore
      simp only [Except.ok.injEq] at hscore
      rw [← hscore]
      exact (scoreList_idx _ _ _ _ 0).1
  unfold accessMemoriesM at hacc
  rw [hscore] at hacc
  simp only [Except.ok.injEq, Prod.mk.injEq] at hacc
  obtain ⟨hout, hdb⟩ := hacc
  refine ⟨?_, hout.symm, ?_, ?_, ?_, ?_, ?_, ?_⟩
  · rw [← hout, List.length_map, List.length_take]
    exact Nat.min_le_left _ _
  · rw [← hdb]
  · rw [← hdb]
  · rw [← hdb]
  · rw [← hdb]
  · rw [← hdb, ← hout, List.map_map]
    rfl
  · intro hreal
    exact pairwise_sortDesc hreal hidx

/-- The scored candidates of the non-degenerate concrete run. -/
def scored5 : List ScoredItem := [⟨m1ex, .num 3, 0⟩, ⟨m2ex, .num 0, 1⟩]

/-- The output of the non-degenerate concrete run. -/
def out5 : List (MemoryDoc × JSNum) := [(m1ex, .num 3), (m2ex, .num 0)]

/-- The access rows appended by the non-degenerate concrete run. -/
def acc5A : MemoryAccessDoc := { memoryId := 10, creationTime := 7200000 }

/-- Second appended access row of the concrete run. -/
def acc5B : MemoryAccessDoc := { memoryId := 20, creationTime := 7200000 }

/-- The store after the non-degenerate concrete run. -/
def db5After : DB :=
  { db5 with memoryAccesses :=
      [{ memoryId := 10, creationTime := 0 }, acc5A, acc5B] }

/-- Witness: the amended C5 theorem applied at a store whose three
signals all have non-degenerate ranges. -/
theorem c5_amended_witness :
    out5.length ≤ 2 ∧ List.Pairwise rankedBefore (sortDesc scored5) := by
  have h1 : scoreCandidates db5 7200000 1 cands5 = .ok scored5 := by
    with_unfolding_all rfl
  have h2 : accessMemoriesM db5 7200000 1 cands5 2 = .ok (out5, db5After) := by
    with_unfolding_all rfl
  refine ⟨(c5_amended_ranking db5 7200000 1 cands5 2 scored5 out5 db5After
    h1 h2).1, ?_⟩
  refine (c5_amended_ranking db5 7200000 1 cands5 2 scored5 out5 db5After
    h1 h2).2.2.2.2.2.2.2 ?_
  intro it hit
  fin_cases hit <;> rfl

/-- The output of the tied-importance run: both composite scores are
`NaN`. -/
def outNan : List (MemoryDoc × JSNum) := [(memNanA, .nan), (memNanB, .nan)]

/-- First access row appended by the tied-importance run. -/
def accNanA : MemoryAccessDoc := { memoryId := 1, creationTime := 1000 }

/-- Second access row appended by the tied-importance run. -/
def accNanB : MemoryAccessDoc := { memoryId := 2, creationTime := 1000 }

/-- The store after the tied-importance run. -/
def dbNanAfter : DB := { dbNan with memoryAccesses := [accNanA, accNanB] }

/-- C5 counterexample: with two candidates tying on importance every
composite score is `NaN`, and the returned sequence of scores is not
non-increasing under the JS `>=` (every comparison with `NaN` is
false), so the claim's ordering guarantee fails as stated. -/
theorem c5_nan_order_counterexample :
    accessMemoriesM dbNan 1000 1 candsNan 2 = .ok (outNan, dbNanAfter) ∧
    outNan.map (fun p => p.2) = [.nan, .nan] ∧
    ¬ List.Pairwise (fun a b : MemoryDoc × JSNum => jsGeB a.2 b.2 = true)
      outNan := by
  refine ⟨by with_unfolding_all rfl, by with_unfolding_all rfl, ?_⟩
  intro h
  simp [outNan, jsGeB] at h

/-! ### C9 -/

theorem zipmap_scores :
    ∀ (results : List Candidate) (memories : List MemoryDoc),
      memories.length = results.length →
      ((results.zip memories).map (fun p => (p.2, p.1.score))).map
        (fun p => p.2) = results.map (fun r => r.score) := by
  intro results
  induction results with
  | nil => intro memories _; simp
  | cons r rs ih =>
    intro memories hlen
    cases memories with
    | nil => simp at hlen
    | cons m ms => simp [ih ms (by simpa using hlen)]

theorem zipmap_get :
    ∀ (results : List Candidate) (memories : List MemoryDoc) (i : ℕ)
      (h : i < results.length) (hm : i < memories.length)
      (h' : i < ((results.zip memories).map
        (fun p => (p.2, p.1.score))).length),
      ((results.zip memories).map (fun p => (p.2, p.1.score))).get ⟨i, h'⟩ =
        (memories.get ⟨i, hm⟩, (results.get ⟨i, h⟩).score) := by
  intro results
  induction results with
  | nil => intro memories i h; exact absurd h (by simp)
  | cons r rs ih =>
    intro memories i h hm h'
    cases memories with
    | nil => simp at hm
    | cons m ms =>
      cases i with
      | zero => rfl
      | succ j =>
        exact ih ms j (by simpa using h) (by simpa using hm)
          (by simpa using h')

/-- C9: `search` is side-effect-free — it runs only read-only queries,
so the store is unchanged — and it returns the hydrated `(memory,
score)` pairs positionally: the i-th result carries the i-th candidate's
similarity score unchanged and the memory hydrated from the i-th
candidate's embedding id. -/
theorem c9_search_pure (db : DB) (pid : ℕ) (results : List Candidate)
    (out : List (MemoryDoc × JSNum)) (db' : DB) :
    searchAction db pid results = .ok (out, db') →
    db' = db ∧
    out.map (fun p => p.2) = results.map (fun r => r.score) ∧
    out.length = results.length ∧
    (∀ i (h : i < results.length) (h' : i < out.length),
      getMemoryByEmbeddingId db pid (results.get ⟨i, h⟩).embeddingId =
        .ok (out.get ⟨i, h'⟩).1) := by
  intro h
  unfold searchAction at h
  cases hm : mapExcept
      (fun r => getMemoryByEmbeddingId db pid r.embeddingId) results with
  | error e => rw [hm] at h; exact absurd h (by simp)
  | ok memories =>
    rw [hm] at h
    simp only [Except.ok.injEq, Prod.mk.injEq] at h
    obtain ⟨hout, hdb⟩ := h
    subst hdb
    subst hout
    have hlen := mapExcept_ok_length hm
    refine ⟨rfl, zipmap_scores results memories hlen, ?_, ?_⟩
    · rw [List.length_map, List.length_zip, hlen]
      exact Nat.min_self _
    · intro i hi hi'
      have hmi : i < memories.length := by rw [hlen]; exact hi
      rw [zipmap_get results memories i hi hmi hi']
      exact mapExcept_ok_get hm i hi hmi

/-- The candidate hydrated in the C9 witness run. -/
def resultS : Candidate := ⟨1, .num (3 / 4)⟩

/-- The output of the C9 witness run. -/
def outS : List (MemoryDoc × JSNum) := [(m1ex, .num (3 / 4))]

/-- Witness: C9 applied at a concrete one-candidate search. -/
theorem c9_search_pure_witness :
    db5 = db5 ∧
    outS.map (fun p => p.2) = [resultS].map (fun r => r.score) := by
  have h := c9_search_pure db5 1 [resultS] outS db5
    (by with_unfolding_all rfl)
  exact ⟨h.1, h.2.1⟩

/-! ### C10 -/

/-- C10: when a candidate id returned by the vector index has no
persisted Memory for the player, hydration throws: both
`accessMemories` and `search` end in an error and return no result
(and, the mutation being transactional, no MemoryAccess row is
written). -/
theorem c10_missing_memory_fails (db : DB) (pid : ℕ)
    (candidates : List Candidate) (count : ℕ) (ts : ℚ) (c : Candidate) :
    c ∈ candidates →
    lastMatching db.memories
      (fun m => m.playerId == pid && m.embeddingId == c.embeddingId) = none →
    (∃ e, accessMemoriesM db ts pid candidates count = .error e) ∧
    (∃ e, searchAction db pid candidates = .error e) := by
  intro hmem hnone
  have herr : getMemoryByEmbeddingId db pid c.embeddingId =
      .error ("No memory found for player and embedding") := by
    unfold getMemoryByEmbeddingId
    rw [hnone]
  obtain ⟨e', he'⟩ := mapExcept_error_of_mem
    (fun c : Candidate => getMemoryByEmbeddingId db pid c.embeddingId)
    hmem herr
  constructor
  · refine ⟨e', ?_⟩
    unfold accessMemoriesM scoreCandidates
    rw [he']
  · refine ⟨e', ?_⟩
    unfold searchAction
    rw [he']

/-! ### C8 -/

/-- The conversation memory of the boundary store (conversation 7,
created at time 100). -/
def mC : MemoryDoc :=
  { id := 1, playerId := 1, description := "x", embeddingId := 50,
    importance := .num 5, data := .conversation 7, creationTime := 100 }

/-- A talking journal entry of conversation 7 at time 150, sent by
player 1. -/
def eC : JournalEntry :=
  { conversationId := 7, isTalking := true, sender := 1, audience := [2],
    content := "hi", creationTime := 150 }

/-- The boundary store: one conversation memory, one later message. -/
def dbC : DB :=
  { nextId := 60, memories := [mC], embeddings := [], memoryAccesses := [],
    journal := [eC] }

/-- The boundary store without any journal entry. -/
def dbB : DB := { dbC with journal := [] }

/-- A provider returning one vector for any request. -/
def ebC : List String → List (List ℚ) := fun _ => [[1]]

/-- A chat model answering "sum" to everything. -/
def compC : String → String := fun _ => "sum"

/-- The memory created by the zero-timestamp run. -/
def mCNew : MemoryDoc :=
  { id := 61, playerId := 1, description := "sum", embeddingId := 60,
    importance := .num 5, data := .conversation 7, creationTime := 200 }

/-- The embedding row created by the zero-timestamp run. -/
def embCNew : EmbeddingDoc :=
  { id := 60, playerId := 1, text := "sum", embedding := [1],
    creationTime := 200 }

/-- The store after the zero-timestamp run. -/
def dbCAfter : DB :=
  { nextId := 62, memories := [mC, mCNew], embeddings := [embCNew],
    memoryAccesses := [], journal := [eC] }

/-- C8 counterexample: a supplied `lastSpokeTimestamp` of 0 predates the
creation time 100 of the agent's most recent conversation memory, yet
`rememberConversation` returns `true` and creates a new memory — the JS
truthiness test `lastSpokeTs && ...` treats 0 as absent and skips the
boundary check. -/
theorem c8_zero_timestamp_counterexample :
    (0 : ℚ) < mC.creationTime ∧
    lastConversationMemoryOf dbC 1 = some mC ∧
    rememberConversationM dbC 200 ebC compC ("A") 1 ("B") 7 (some 0) =
      .ok (true, dbCAfter) ∧
    dbCAfter.memories.length = dbC.memories.length + 1 := by
  refine ⟨?_, ?_, ?_, ?_⟩
  · rw [show mC.creationTime = 100 from rfl]
    norm_num
  · with_unfolding_all rfl
  · with_unfolding_all rfl
  · with_unfolding_all rfl

/-- C8 (amended): `rememberConversation` returns `false` and leaves the
store unchanged whenever the supplied timestamp is NONZERO and predates
the most recent conversation memory's creation (a zero timestamp is
falsy and skips the check); it likewise returns `false` with no new
memory whenever the message query yields no qualifying messages; but
when the conversation has no talking message in scope at all and the
most recent conversation memory is not of this conversation, the query
reads a property of `undefined` and the call throws instead of
returning `false` (still creating nothing — the error carries no new
store). -/
theorem c8_amended_boundary (db : DB) (now : ℚ)
    (eb : List String → List (List ℚ)) (comp : String → String)
    (pname pidentity : String) (pid cid : ℕ) (lastTs : Option ℚ) :
    (∀ (t : ℚ) (m : MemoryDoc), lastTs = some t → t ≠ 0 →
      lastConversationMemoryOf db pid = some m → t < m.creationTime →
      rememberConversationM db now eb comp pname pid pidentity cid lastTs =
        .ok (false, db)) ∧
    (getRecentMessagesM db pid cid lastTs = .ok [] →
      rememberConversationM db now eb comp pname pid pidentity cid lastTs =
        .ok (false, db)) ∧
    (earlyReturnB db pid lastTs = false →
      allMessagesOf db pid cid = [] →
      (∀ m, lastConversationMemoryOf db pid = some m →
        conversationIdOfData m.data ≠ some cid) →
      ∃ e, rememberConversationM db now eb comp pname pid pidentity cid
        lastTs = .error e) := by
  have hof : ∀ msgs, getRecentMessagesM db pid cid lastTs = .ok msgs →
      msgs = [] →
      rememberConversationM db now eb comp pname pid pidentity cid lastTs =
        .ok (false, db) := by
    intro msgs hmsgs hnil
    unfold rememberConversationM
    rw [hmsgs, hnil]
    rfl
  refine ⟨?_, ?_, ?_⟩
  · intro t m hts hne hlast hlt
    have hearly : earlyReturnB db pid lastTs = true := by
      rw [hts]
      simp only [earlyReturnB, hlast]
      simp [hne, hlt]
    refine hof [] ?_ rfl
    unfold getRecentMessagesM
    simp [hearly]
  · intro hmsgs
    exact hof [] hmsgs rfl
  · intro hearly hempty hcid
    have hprev : lastMemoryTsPrev db pid cid =
        .error ("TypeError: cannot read _creationTime of undefined") := by
      unfold lastMemoryTsPrev
      rw [hempty]
      rfl
    have hlast : lastMemoryTsOf db pid cid =
        .error ("TypeError: cannot read _creationTime of undefined") := by
      unfold lastMemoryTsOf
      cases hl : lastConversationMemoryOf db pid with
      | none => exact hprev
      | some m =>
        have hb : (conversationIdOfData m.data == some cid) = false := by
          rw [beq_eq_false_iff_ne]
          exact hcid m hl
        simp [hb, hprev]
    refine ⟨"TypeError: cannot read _creationTime of undefined", ?_⟩
    have hmsgs : getRecentMessagesM db pid cid lastTs =
        .error ("TypeError: cannot read _creationTime of undefined") := by
      unfold getRecentMessagesM
      simp [hearly, hlast]
    unfold rememberConversationM
    rw [hmsgs]

/-- Witness: the amended C8 theorem applied at the boundary store with a
nonzero early timestamp, at the store with no messages, and at the empty
store where the lookup throws. -/
theorem c8_amended_witness :
    rememberConversationM dbC 200 ebC compC ("A") 1 ("B") 7 (some 50) =
      .ok (false, dbC) ∧
    rememberConversationM dbB 200 ebC compC ("A") 1 ("B") 7 none =
      .ok (false, dbB) ∧
    (∃ e, rememberConversationM emptyDb 200 ebC compC ("A") 1 ("B") 7
      none = .error e) := by
  refine ⟨?_, ?_, ?_⟩
  · refine (c8_amended_boundary dbC 200 ebC compC ("A") ("B") 1 7
      (some 50)).1 50 mC rfl (by norm_num) (by with_unfolding_all rfl) ?_
    rw [show mC.creationTime = 100 from rfl]
    norm_num
  · exact (c8_amended_boundary dbB 200 ebC compC ("A") ("B") 1 7 none).2.1
      (by with_unfolding_all rfl)
  · refine (c8_amended_boundary emptyDb 200 ebC compC ("A") ("B") 1 7
      none).2.2 rfl (by with_unfolding_all rfl) ?_
    intro m hm
    rw [show lastConversationMemoryOf emptyDb 1 = none from rfl] at hm
    cases hm

/-- A candidate with no persisted memory. -/
def candGhost : Candidate := ⟨5, .num 1⟩

/-- Witness: C10 applied at an empty store. -/
theorem c10_missing_memory_fails_witness :
    (∃ e, accessMemoriesM emptyDb 0 1 [candGhost] 3 = .error e) ∧
    (∃ e, searchAction emptyDb 1 [candGhost] = .error e) :=
  c10_missing_memory_fails emptyDb 1 [candGhost] 3 0 candGhost (by simp)
    (by with_unfolding_all rfl)

end AITown
